import Mathlib

/-!
# Verification of the github-secrets update orchestration pipeline

Shallow embedding of the repository's core: the data model (`config.rs`),
the secret-service client response handling (`github.rs`), the rate limiter
(`rate_limit.rs`), and the orchestration / aggregation / retry logic of the
binary (`main.rs`).  `app.rs` (the dependency-injected orchestrator
`App::run_with_deps`) is declared in `lib.rs` and exercised by the test
suite but its source is absent; where a claim is decided by it, the
definition is modelled from the specification and marked as such.

Machine strings are Lean `String`s, instants are `Nat` ticks, fallible
calls return `Except`.  Network and terminal collaborators are oracles
passed as function arguments.
-/

namespace GithubSecrets

/-! ## Data model (`config.rs`, `prompt.rs`, `github.rs`, `main.rs`) -/

/-- Source `config::Repository`: owner, name, and an optional display alias.
The source field is named `alias`; that is a Lean keyword, so the field is
spelled `repoAlias` here. -/
structure Repository where
  owner : String
  name : String
  repoAlias : Option String
  deriving DecidableEq, Repr

/-- Source `Repository::path`: the "owner/name" form. -/
def Repository.path (r : Repository) : String :=
  r.owner ++ "/" ++ r.name

/-- Source `Repository::display_name`: "alias (owner/name)" when an alias is set,
otherwise "owner/name". -/
def Repository.display_name (r : Repository) : String :=
  match r.repoAlias with
  | some a => a ++ " (" ++ r.path ++ ")"
  | none => r.path

/-- Source `prompt::SecretPair`: a key/value pair typed by the operator. -/
structure SecretPair where
  key : String
  value : String
  deriving DecidableEq, Repr

/-- Source `github::SecretInfo`: remote secret metadata; the `name` field is
skipped by serde, `updated_at` is the optional last-update timestamp. -/
structure SecretInfo where
  name : String
  updated_at : Option String
  deriving DecidableEq, Repr

/-- Source `main.rs`'s `UpdateResult`: one recorded outcome per
(repository, secret) attempt. -/
structure UpdateResult where
  secret_name : String
  repository : String
  success : Bool
  error : Option String
  deriving DecidableEq, Repr

/-! ## Substring search

`str::contains` on the small messages inspected by `github.rs`,
rendered over the character list so the kernel can evaluate it. -/

/-- Whether `pat` is a prefix of `hay` (character lists). -/
def charsStartWith : List Char → List Char → Bool
  | [], _ => true
  | _ :: _, [] => false
  | a :: as, b :: bs => a == b && charsStartWith as bs

/-- Whether `pat` occurs contiguously inside `hay` (character lists);
the model of `str::contains`. -/
def charsContain (pat : List Char) : List Char → Bool
  | [] => charsStartWith pat []
  | x :: rest => charsStartWith pat (x :: rest) || charsContain pat rest

/-- Source `str::contains` on strings. -/
def strContains (s pat : String) : Bool :=
  charsContain pat.toList s.toList

/-! ## `github.rs`: `GitHubClient::get_secret_info` -/

/-- The outcome of the octocrab GET issued by `get_secret_info`:
either a parsed `SecretInfo`, a GitHub API error (carrying the remote
status code and message), or any other (transport, ...) failure. -/
inductive GetOutcome where
  | found (updated_at : Option String)
  | githubError (status : Nat) (message : String)
  | otherError (msg : String)
  deriving DecidableEq, Repr

/-- The data carried by a failed lookup: the remote API error's status and
message, or the transport failure's message.  `get_secret_info` wraps the
octocrab error value (`anyhow!("{}", e)`) under the context
"Failed to get secret info"; the remote status/message live in that
wrapped value. -/
inductive GetErr where
  | api (status : Nat) (message : String)
  | transport (msg : String)
  deriving DecidableEq, Repr

/-- Source `GitHubClient::get_secret_info` response handling (`github.rs` lines
89–104): `Ok` parses to `Some` metadata, a GitHub error with status 404
maps to `Ok(None)`, every other error is wrapped with the context
"Failed to get secret info". -/
def get_secret_info (out : GetOutcome) : Except (String × GetErr) (Option SecretInfo) :=
  match out with
  | .found u => .ok (some { name := "", updated_at := u })
  | .githubError st m =>
    if st == 404 then .ok none
    else .error ("Failed to get secret info", .api st m)
  | .otherError m => .error ("Failed to get secret info", .transport m)

/-! ## `github.rs`: `GitHubClient::update_secret` -/

/-- Source `github.rs`'s `PublicKey`: key identifier and base64 key material. -/
structure PublicKey where
  key_id : String
  key : String
  deriving DecidableEq, Repr

/-- The outcome of the octocrab PUT issued by `update_secret`:
`parsed` is `Ok(_)` (the body parsed as `IgnoredAny`); `jsonError` is
`octocrab::Error::Json` carrying the serde message; `githubError` carries
the non-2xx status, message, optional non-empty errors detail and optional
documentation URL; the rest are the remaining octocrab error variants. -/
inductive PutOutcome where
  | parsed
  | jsonError (msg : String)
  | githubError (status : Nat) (message : String)
      (errorsDetail : Option String) (documentationUrl : Option String)
  | httpError (msg : String)
  | uriError (msg : String)
  | otherError (msg : String)
  deriving DecidableEq, Repr

/-- The error string `update_secret` builds for a GitHub API error
(`github.rs` lines 153–166): status and message always, the debug-formatted
error details and the documentation URL when present. -/
def githubApiErrorString (status : Nat) (message : String)
    (errorsDetail documentationUrl : Option String) : String :=
  "GitHub API error (status " ++ toString status ++ "): " ++ message
    ++ (match errorsDetail with
        | some d => " Details: " ++ d
        | none => "")
    ++ (match documentationUrl with
        | some u => " Documentation: " ++ u
        | none => "")

/-- Source `GitHubClient::update_secret` (`github.rs` lines 106–181): fetch the
public key (propagating its failure), encrypt (wrapping a failure with
"Failed to encrypt secret"), then classify the PUT outcome.  A JSON decode
error whose message contains "EOF" or "expected value" is treated as the
empty 204 body, hence success; any other decode error, and every
API/transport error, is an error. -/
def update_secret (publicKey : Except String PublicKey)
    (encrypted : Except String String) (put : PutOutcome) :
    Except String Unit :=
  match publicKey with
  | .error e => .error e
  | .ok _ =>
    match encrypted with
    | .error e => .error ("Failed to encrypt secret: " ++ e)
    | .ok _ =>
      match put with
      | .parsed => .ok ()
      | .jsonError msg =>
        if strContains msg "EOF" || strContains msg "expected value" then
          .ok ()
        else
          .error ("JSON parsing error: " ++ msg)
      | .githubError st m errs doc =>
        .error (githubApiErrorString st m errs doc)
      | .httpError m => .error ("HTTP error: " ++ m)
      | .uriError m => .error ("URI error: " ++ m)
      | .otherError m => .error m

/-- Modelled from the spec: the decode error serde reports for an *empty*
response body ("EOF while parsing a value"); the code's own comment ties
the empty 204 body to an EOF decode error.  A decode failure with a
different message therefore came from a non-empty body. -/
def emptyBodyEofMessage : String :=
  "EOF while parsing a value at line 1 column 0"

/-! ## `rate_limit.rs`: the RateLimiter

Instants are `Nat` ticks; `now.duration_since(t)` is truncated subtraction
(`Instant::duration_since` saturates at zero). -/

/-- Source `rate_limit::RateLimiter` state. -/
structure RateLimiter where
  max_requests_per_hour : Nat
  window : Nat
  request_times : List Nat
  max_concurrent : Nat
  current_concurrent : Nat
  deriving DecidableEq, Repr

/-- Source `RateLimiter::with_limits`. -/
def RateLimiter.with_limits (maxRequestsPerHour maxConcurrent windowSecs : Nat) :
    RateLimiter :=
  { max_requests_per_hour := maxRequestsPerHour
    window := windowSecs
    request_times := []
    max_concurrent := maxConcurrent
    current_concurrent := 0 }

/-- Source `RateLimiter::new`: the default GitHub limits from `constants.rs`
(5000 requests per hour, 5 concurrent, one-hour window). -/
def RateLimiter.mkNew : RateLimiter :=
  RateLimiter.with_limits 5000 5 3600

/-- The `retain` pruning step of `wait_if_needed`: drop timestamps with
`now.duration_since(t) >= window`. -/
def RateLimiter.prune (rl : RateLimiter) (now : Nat) : RateLimiter :=
  { rl with request_times := rl.request_times.filter fun t => now - t < rl.window }

/-- The tail of `wait_if_needed`: push the completion instant and
increment the in-flight counter. -/
def RateLimiter.record (rl : RateLimiter) (t : Nat) : RateLimiter :=
  { rl with
    request_times := rl.request_times ++ [t]
    current_concurrent := rl.current_concurrent + 1 }

/-- Source `RateLimiter::wait_if_needed` (`rate_limit.rs` lines 54–91) as the
state transformation of a *completed* acquire: prune, then (the
concurrency poll loop exits immediately when `current_concurrent <
max_concurrent`, the condition under which the call completes in the
single-task program), then if the pruned timestamp count still reaches the
hourly limit, sleep until the oldest timestamp leaves the window, re-prune
at that later instant, and finally record the completion instant. -/
def RateLimiter.wait_if_needed (rl : RateLimiter) (now : Nat) : RateLimiter :=
  if (rl.prune now).max_requests_per_hour ≤ (rl.prune now).request_times.length then
    match (rl.prune now).request_times with
    | [] => (rl.prune now).record now
    | oldest :: _ =>
      if now - oldest < (rl.prune now).window then
        ((rl.prune now).prune
            (now + ((rl.prune now).window - (now - oldest)))).record
          (now + ((rl.prune now).window - (now - oldest)))
      else
        (rl.prune now).record now
  else
    (rl.prune now).record now

/-- Source `RateLimiter::release` (`rate_limit.rs` lines 94–98): decrement the
in-flight counter, clamped at zero by the guard. -/
def RateLimiter.release (rl : RateLimiter) : RateLimiter :=
  if 0 < rl.current_concurrent then
    { rl with current_concurrent := rl.current_concurrent - 1 }
  else
    rl

/-- One observable operation on the rate limiter: a completed acquire at a
monotone instant `now` (the clock never runs behind a recorded timestamp),
or a release.  A completed acquire requires the in-flight count to be
below the concurrency limit — otherwise the poll loop never exits in the
single-task program. -/
inductive RLStep : RateLimiter → RateLimiter → Prop where
  | acquire (rl : RateLimiter) (now : Nat)
      (hconc : rl.current_concurrent < rl.max_concurrent)
      (hmono : ∀ t ∈ rl.request_times, t ≤ now) :
      RLStep rl (rl.wait_if_needed now)
  | release (rl : RateLimiter) : RLStep rl rl.release

/-- States reachable by a sequence of completed acquires and releases. -/
def RLReach (init st : RateLimiter) : Prop :=
  Relation.ReflTransGen RLStep init st

/-! ## `main.rs`: the orchestration pipeline of the binary

The GitHub client is abstracted by two oracles giving, per
(repository index, secret key), the outcome of `get_secret_info` and of
`update_secret` (the `Err` payload being the joined error chain the code
formats); the confirmation prompt is an oracle from (key, last-updated)
to a boolean. -/

/-- The reason string recorded for a declined overwrite. -/
def declinedMsg : String := "User declined to overwrite"

/-- The run-scoped accumulation of `main`: the `all_results` list and the
`all_failed_secrets` list of (repository index, secret) pairs whose
`update_secret` call failed. -/
structure PassState where
  results : List UpdateResult
  failed : List (Nat × SecretPair)
  deriving DecidableEq, Repr

/-- The `match github_client.update_secret(...)` arm of the first pass
(`main.rs` lines 89–130): a success or failure result is appended, and a
failed update is also queued for the retry pass. -/
def mainAttemptUpdate (repoIndex : Nat) (repoDisplay : String)
    (upd : Nat → String → Except String Unit)
    (st : PassState) (s : SecretPair) : PassState :=
  match upd repoIndex s.key with
  | .ok _ =>
    { st with
      results := st.results ++
        [{ secret_name := s.key, repository := repoDisplay
           success := true, error := none }] }
  | .error e =>
    { results := st.results ++
        [{ secret_name := s.key, repository := repoDisplay
           success := false, error := some e }]
      failed := st.failed ++ [(repoIndex, s)] }

/-- One iteration of the per-secret loop of the first pass (`main.rs`
lines 65–131).  A `get_secret_info` failure propagates through `?` under
the context "Failed to check if secret exists", aborting the run; when the
secret exists and the overwrite is declined, a failure result with
`declinedMsg` is recorded (without queueing the pair for retry); otherwise
the update is attempted. -/
def mainProcessSecret (repoIndex : Nat) (repoDisplay : String)
    (info : Nat → String → Except String (Option SecretInfo))
    (confirm : String → Option String → Bool)
    (upd : Nat → String → Except String Unit)
    (st : PassState) (s : SecretPair) : Except String PassState :=
  match info repoIndex s.key with
  | .error e => .error ("Failed to check if secret exists: " ++ e)
  | .ok minfo =>
    match minfo with
    | some i =>
      if confirm s.key i.updated_at then
        .ok (mainAttemptUpdate repoIndex repoDisplay upd st s)
      else
        .ok { st with
              results := st.results ++
                [{ secret_name := s.key, repository := repoDisplay
                   success := false, error := some declinedMsg }] }
    | none => .ok (mainAttemptUpdate repoIndex repoDisplay upd st s)

/-- The per-secret loop of the first pass over one repository. -/
def mainProcessSecrets (repoIndex : Nat) (repoDisplay : String)
    (info : Nat → String → Except String (Option SecretInfo))
    (confirm : String → Option String → Bool)
    (upd : Nat → String → Except String Unit)
    (st : PassState) : List SecretPair → Except String PassState
  | [] => .ok st
  | s :: rest =>
    match mainProcessSecret repoIndex repoDisplay info confirm upd st s with
    | .error e => .error e
    | .ok st' => mainProcessSecrets repoIndex repoDisplay info confirm upd st' rest

/-- The repository of a selected index: `repositories[repo_index]`
(selection indices are produced from the same list and are in bounds). -/
def repoAt (repos : List Repository) (i : Nat) : Repository :=
  repos.getD i { owner := "", name := "", repoAlias := none }

/-- The outer per-repository loop of the first pass (`main.rs` lines
50–133). -/
def mainPassRepos (repos : List Repository) (secrets : List SecretPair)
    (info : Nat → String → Except String (Option SecretInfo))
    (confirm : String → Option String → Bool)
    (upd : Nat → String → Except String Unit)
    (st : PassState) : List Nat → Except String PassState
  | [] => .ok st
  | i :: rest =>
    match mainProcessSecrets i (repoAt repos i).display_name info confirm upd st secrets with
    | .error e => .error e
    | .ok st' => mainPassRepos repos secrets info confirm upd st' rest

/-- The whole first pass of `main`, from empty accumulators. -/
def mainPass (repos : List Repository) (selected : List Nat)
    (secrets : List SecretPair)
    (info : Nat → String → Except String (Option SecretInfo))
    (confirm : String → Option String → Bool)
    (upd : Nat → String → Except String Unit) : Except String PassState :=
  mainPassRepos repos secrets info confirm upd { results := [], failed := [] } selected

/-- Source `success_count` of the summary (`main.rs` line 139). -/
def successCount (results : List UpdateResult) : Nat :=
  (results.filter fun r => r.success).length

/-- Source `failure_count` of the summary (`main.rs` line 140): total minus
successes. -/
def failureCount (results : List UpdateResult) : Nat :=
  results.length - successCount results

/-! ### Per-repository grouping (`main.rs` lines 147–166)

The breakdown inserts each result into
`repo_results.entry(result.repository).or_insert(vec![]).push(result)`
over a `std::collections::HashMap`.  The map is embedded as the function
from a key to its pushed-in-order group; the `HashMap` iteration order
over keys is *not* defined by the code, so an enumeration of the map is
modelled as any list of the distinct keys. -/

/-- One insertion into the per-repository map: push the result onto its
repository's group. -/
def addToGroups (m : String → List UpdateResult) (r : UpdateResult) :
    String → List UpdateResult :=
  fun k => if r.repository == k then m k ++ [r] else m k

/-- The per-repository map `repo_results` after inserting every result in
list order. -/
def repoGroups (results : List UpdateResult) : String → List UpdateResult :=
  results.foldl addToGroups fun _ => []

/-- Append a key if it has not been seen yet. -/
def insertKey (ks : List String) (k : String) : List String :=
  if k ∈ ks then ks else ks ++ [k]

/-- The distinct repository names of a result list in first-seen order. -/
def firstSeenKeys (results : List UpdateResult) : List String :=
  results.foldl (fun ks r => insertKey ks r.repository) []

/-- What the `HashMap` contract guarantees about iterating
`&repo_results`: each distinct key exactly once, in an unspecified
order — any permutation of the distinct keys. -/
def hashMapKeyOrder (results : List UpdateResult) (ks : List String) : Prop :=
  ks.Perm (firstSeenKeys results)

/-! ### The retry pass (`main.rs` lines 180–239) -/

/-- A call to a collaborator observable from the orchestration: rate
limiter acquire/release, the two client calls, and the overwrite
confirmation prompt. -/
inductive CallEvent where
  | acquire
  | release
  | getInfoCall (repoIndex : Nat) (secretKey : String)
  | confirmCall (secretKey : String)
  | updateCall (repoIndex : Nat) (secretKey : String)
  deriving DecidableEq, Repr

/-- Source `{r with success := true, error := none}`: the in-place supersession a
successful retry applies to a result. -/
def successify (r : UpdateResult) : UpdateResult :=
  { r with success := true, error := none }

/-- The retry-success bookkeeping (`main.rs` lines 203–207): mutate the
first result whose (secret name, repository) matches to a success;
nothing is appended. -/
def updateFirstMatch (results : List UpdateResult) (name repo : String) :
    List UpdateResult :=
  match results with
  | [] => []
  | r :: rest =>
    if r.secret_name == name && r.repository == repo then
      successify r :: rest
    else
      r :: updateFirstMatch rest name repo

/-- The retry pass (`main.rs` lines 183–228): for each collected failed
(repository index, secret) pair, call `update_secret` directly — no
`get_secret_info`, no confirmation prompt — marking the existing result as
success when the retry succeeds and leaving the list unchanged when it
fails again.  Returns the final result list and the trace of collaborator
calls made. -/
def retryPass (repos : List Repository) (results : List UpdateResult)
    (upd : Nat → String → Except String Unit) :
    List (Nat × SecretPair) → List UpdateResult × List CallEvent
  | [] => (results, [])
  | (i, s) :: rest =>
    match upd i s.key with
    | .ok _ =>
      let results' := updateFirstMatch results s.key (repoAt repos i).display_name
      let out := retryPass repos results' upd rest
      (out.1, CallEvent.updateCall i s.key :: out.2)
    | .error _ =>
      let out := retryPass repos results upd rest
      (out.1, CallEvent.updateCall i s.key :: out.2)

/-! ## The dependency-injected orchestrator `App::run_with_deps`

Modelled from the spec: `src/app.rs` is declared by `lib.rs` and exercised
by the test suite (`app_run_with_deps_tests.rs` passes a `GitHubApiFactory`,
a `PromptInterface` and a `RateLimiterInterface` to `App::run_with_deps`),
but its source file is absent.  The orchestration below follows the spec's
§4.3 state machine and §4.4 retry pass word for word: per pair, acquire the
rate limiter, look up the secret, consult the confirmation oracle when the
secret exists, attempt the update, and release; the retry pass re-runs the
same logic for the failed pairs, skipping the existence check and the
confirmation step. -/

/-- Modelled from the spec (§4.3): processing of one (repository, secret)
pair by `App::run_with_deps`, returning the recorded result and the trace
of collaborator calls.  Every branch acquires the rate limiter first and
releases it last. -/
def specProcessPair (repoIndex : Nat) (repoDisplay : String)
    (info : Nat → String → Except String (Option SecretInfo))
    (confirm : String → Option String → Bool)
    (upd : Nat → String → Except String Unit)
    (s : SecretPair) : UpdateResult × List CallEvent :=
  match info repoIndex s.key with
  | .error e =>
    ({ secret_name := s.key, repository := repoDisplay
       success := false, error := some e },
     [CallEvent.acquire, CallEvent.getInfoCall repoIndex s.key, CallEvent.release])
  | .ok (some i) =>
    if confirm s.key i.updated_at then
      match upd repoIndex s.key with
      | .ok _ =>
        ({ secret_name := s.key, repository := repoDisplay
           success := true, error := none },
         [CallEvent.acquire, CallEvent.getInfoCall repoIndex s.key,
          CallEvent.confirmCall s.key, CallEvent.updateCall repoIndex s.key,
          CallEvent.release])
      | .error e =>
        ({ secret_name := s.key, repository := repoDisplay
           success := false, error := some e },
         [CallEvent.acquire, CallEvent.getInfoCall repoIndex s.key,
          CallEvent.confirmCall s.key, CallEvent.updateCall repoIndex s.key,
          CallEvent.release])
    else
      ({ secret_name := s.key, repository := repoDisplay
         success := false, error := some declinedMsg },
       [CallEvent.acquire, CallEvent.getInfoCall repoIndex s.key,
        CallEvent.confirmCall s.key, CallEvent.release])
  | .ok none =>
    match upd repoIndex s.key with
    | .ok _ =>
      ({ secret_name := s.key, repository := repoDisplay
         success := true, error := none },
       [CallEvent.acquire, CallEvent.getInfoCall repoIndex s.key,
        CallEvent.updateCall repoIndex s.key, CallEvent.release])
    | .error e =>
      ({ secret_name := s.key, repository := repoDisplay
         success := false, error := some e },
       [CallEvent.acquire, CallEvent.getInfoCall repoIndex s.key,
        CallEvent.updateCall repoIndex s.key, CallEvent.release])

/-- Modelled from the spec (§4.3): the per-secret loop of the
dependency-injected orchestrator over one repository, also collecting the
failed pairs for the retry pass. -/
def specPassSecrets (repoIndex : Nat) (repoDisplay : String)
    (info : Nat → String → Except String (Option SecretInfo))
    (confirm : String → Option String → Bool)
    (upd : Nat → String → Except String Unit) :
    List SecretPair → List UpdateResult × List (Nat × SecretPair) × List CallEvent
  | [] => ([], [], [])
  | s :: rest =>
    let one := specProcessPair repoIndex repoDisplay info confirm upd s
    let out := specPassSecrets repoIndex repoDisplay info confirm upd rest
    (one.1 :: out.1,
     (if one.1.success then out.2.1 else (repoIndex, s) :: out.2.1),
     one.2 ++ out.2.2)

/-- Modelled from the spec (§4.3): the repository loop of the
dependency-injected orchestrator. -/
def specPassRepos (repos : List Repository) (secrets : List SecretPair)
    (info : Nat → String → Except String (Option SecretInfo))
    (confirm : String → Option String → Bool)
    (upd : Nat → String → Except String Unit) :
    List Nat → List UpdateResult × List (Nat × SecretPair) × List CallEvent
  | [] => ([], [], [])
  | i :: rest =>
    let one := specPassSecrets i (repoAt repos i).display_name info confirm upd secrets
    let out := specPassRepos repos secrets info confirm upd rest
    (one.1 ++ out.1, one.2.1 ++ out.2.1, one.2.2 ++ out.2.2)

/-- Modelled from the spec (§4.4): the retry pass of the dependency-injected
orchestrator re-runs the §4.3 logic for the failed pairs, skipping the
existence check and the confirmation step; the update attempt is still made
under the rate limiter, and a success supersedes the pair's result in
place. -/
def specRetry (repos : List Repository) (results : List UpdateResult)
    (upd : Nat → String → Except String Unit) :
    List (Nat × SecretPair) → List UpdateResult × List CallEvent
  | [] => (results, [])
  | (i, s) :: rest =>
    match upd i s.key with
    | .ok _ =>
      let results' := updateFirstMatch results s.key (repoAt repos i).display_name
      let out := specRetry repos results' upd rest
      (out.1,
       CallEvent.acquire :: CallEvent.updateCall i s.key :: CallEvent.release :: out.2)
    | .error _ =>
      let out := specRetry repos results upd rest
      (out.1,
       CallEvent.acquire :: CallEvent.updateCall i s.key :: CallEvent.release :: out.2)

/-- Modelled from the spec (§2, §4.3, §4.4): a full `App::run_with_deps`
run — the first pass over selected repositories × secrets, then, when
failures exist and the retry oracle confirms, one retry pass over the
collected failed pairs.  Returns the final results and the full call
trace. -/
def specRunWithDeps (repos : List Repository) (selected : List Nat)
    (secrets : List SecretPair)
    (info : Nat → String → Except String (Option SecretInfo))
    (confirm : String → Option String → Bool)
    (upd : Nat → String → Except String Unit)
    (retryConfirm : Bool) : List UpdateResult × List CallEvent :=
  let p := specPassRepos repos secrets info confirm upd selected
  if retryConfirm && decide (0 < failureCount p.1) then
    let r := specRetry repos p.1 upd p.2.1
    (r.1, p.2.2 ++ r.2)
  else
    (p.1, p.2.2)

/-- Scan of a call trace with the number of rate-limiter acquisitions
currently held: `true` iff every client call happens while the limiter is
held (the confirmation prompt is not a client call). -/
def callsUnderLimiter : Nat → List CallEvent → Bool
  | _, [] => true
  | n, CallEvent.acquire :: rest => callsUnderLimiter (n + 1) rest
  | n, CallEvent.release :: rest => callsUnderLimiter (n - 1) rest
  | n, CallEvent.getInfoCall _ _ :: rest => decide (0 < n) && callsUnderLimiter n rest
  | n, CallEvent.confirmCall _ :: rest => callsUnderLimiter n rest
  | n, CallEvent.updateCall _ _ :: rest => decide (0 < n) && callsUnderLimiter n rest

/-! ## Claim C7: `display_name` -/

/-- Claim C7, counterexample: with an alias set, `display_name` is not the
alias string exactly — it is "alias (owner/name)". -/
theorem c7_alias_not_returned_exactly :
    Repository.display_name
        { owner := "test-owner", name := "test-repo", repoAlias := some "My Repo" } =
      "My Repo (test-owner/test-repo)" ∧
    Repository.display_name
        { owner := "test-owner", name := "test-repo", repoAlias := some "My Repo" } ≠
      "My Repo" := by
  constructor
  · rfl
  · decide

/-- Claim C7 (amended): for every `Repository`, `display_name()` returns
"alias (owner/name)" when an alias is present, and "owner/name"
otherwise. -/
theorem c7_display_name (r : Repository) :
    (r.repoAlias = none → r.display_name = r.owner ++ "/" ++ r.name) ∧
    ∀ a, r.repoAlias = some a →
      r.display_name = a ++ " (" ++ r.owner ++ "/" ++ r.name ++ ")" := by
  constructor
  · intro h
    simp [Repository.display_name, Repository.path, h]
  · intro a h
    simp [Repository.display_name, Repository.path, h, String.append_assoc]

/-- Claim C7, witness: the amended statement at a concrete repository with
and a concrete alias. -/
theorem c7_display_name_witness :
    ({ owner := "o", name := "n", repoAlias := some "A" } : Repository).repoAlias =
        some "A" ∧
    ({ owner := "o", name := "n", repoAlias := some "A" } : Repository).display_name =
      "A" ++ " (" ++ "o" ++ "/" ++ "n" ++ ")" :=
  ⟨rfl, (c7_display_name { owner := "o", name := "n", repoAlias := some "A" }).2 "A" rfl⟩

/-! ## Claim C1: per-pair error handling of the first pass -/

/-- Claim C1: the claim says a `get_secret_info` failure on one pair is
recorded as a per-pair failure and processing continues.  The code instead
propagates the failure with `?` under the context "Failed to check if
secret exists", aborting the whole run: with two secrets and the lookup of
the first failing, the run ends in that error — no per-pair failure is
recorded and the second pair is never attempted. -/
theorem c1_lookup_failure_aborts_run :
    mainPass [{ owner := "o", name := "r", repoAlias := none }] [0]
        [{ key := "K1", value := "v1" }, { key := "K2", value := "v2" }]
        (fun _ k => if k == "K1" then .error "boom" else .ok none)
        (fun _ _ => true)
        (fun _ _ => .ok ()) =
      .error "Failed to check if secret exists: boom" := by
  rfl

/-! ## Claim C5: `get_secret_info` -/

/-- Claim C5: a 404 from the remote maps to `Ok(None)`; any other remote
API error and any transport failure is an error carrying the remote
status/message under the "Failed to get secret info" context; a parsed
response maps to `Ok(Some metadata)`. -/
theorem c5_get_secret_info (st : Nat) (m : String) (u : Option String) :
    get_secret_info (.githubError 404 m) = .ok none ∧
    (st ≠ 404 →
      get_secret_info (.githubError st m) =
        .error ("Failed to get secret info", .api st m)) ∧
    get_secret_info (.otherError m) =
      .error ("Failed to get secret info", .transport m) ∧
    get_secret_info (.found u) = .ok (some { name := "", updated_at := u }) := by
  refine ⟨rfl, ?_, rfl, rfl⟩
  intro h
  simp [get_secret_info, h]

/-- Claim C5, witness: the statement at status 500. -/
theorem c5_get_secret_info_witness :
    (500 ≠ 404) ∧
    get_secret_info (.githubError 500 "Internal Server Error") =
      .error ("Failed to get secret info", .api 500 "Internal Server Error") :=
  ⟨by decide, ((c5_get_secret_info 500 "Internal Server Error" none).2.1) (by decide)⟩

/-! ## Claim C4: `update_secret` response classification -/

/-- A list starts with itself followed by anything. -/
theorem charsStartWith_append (pat b : List Char) :
    charsStartWith pat (pat ++ b) = true := by
  induction pat with
  | nil => rfl
  | cons a as ih => simp [charsStartWith, ih]

/-- Containment is stable under extending the haystack on the left. -/
theorem charsContain_cons (pat : List Char) (x : Char) (rest : List Char)
    (h : charsContain pat rest = true) : charsContain pat (x :: rest) = true := by
  simp [charsContain, h]

/-- A pattern is contained wherever it occurs contiguously. -/
theorem charsContain_mid (a pat b : List Char) :
    charsContain pat (a ++ (pat ++ b)) = true := by
  induction a with
  | nil =>
    have h := charsStartWith_append pat b
    cases hpb : pat ++ b with
    | nil =>
      cases pat with
      | nil => rfl
      | cons _ _ => simp at hpb
    | cons x rest =>
      rw [hpb] at h
      simp [charsContain, h]
  | cons x xs ih =>
    simp only [List.cons_append]
    exact charsContain_cons _ _ _ ih

/-- Appending strings concatenates their character lists. -/
theorem toList_append (s t : String) : (s ++ t).toList = s.toList ++ t.toList := by
  simp [String.toList]

/-- String form of `charsContain_mid`. -/
theorem strContains_mid (s1 pat s2 : String) :
    strContains (s1 ++ pat ++ s2) pat = true := by
  unfold strContains
  rw [toList_append, toList_append]
  simpa [List.append_assoc] using charsContain_mid s1.toList pat.toList s2.toList

/-- String containment of a suffix. -/
theorem strContains_right (s1 pat : String) :
    strContains (s1 ++ pat) pat = true := by
  unfold strContains
  rw [toList_append]
  simpa using charsContain_mid s1.toList pat.toList []

/-- Claim C4, counterexample: a JSON decode failure whose message is
"expected value at line 1 column 1" — the decode error a *non-empty*
unexpected body such as an HTML page produces, distinct from the
empty-body EOF message — is treated as success by `update_secret`,
so a decode failure on a non-empty unexpected body is not always an
error. -/
theorem c4_nonempty_decode_failure_is_success :
    update_secret (.ok { key_id := "kid", key := "key-bytes" }) (.ok "ciphertext")
        (.jsonError "expected value at line 1 column 1") = .ok () ∧
    "expected value at line 1 column 1" ≠ emptyBodyEofMessage := by
  constructor
  · rfl
  · decide

/-- Claim C4 (amended): `update_secret` returns success for a 2xx response
whose body parses, and for a 2xx response whose JSON decode fails with a
message containing "EOF" or "expected value" — the heuristic by which the
code recognises the empty 204 body (in particular the empty body's EOF
message is success); every other decode failure, and every non-2xx
response, is an error, the latter preserving the remote message, status,
and documentation link; public-key and encryption failures propagate. -/
theorem c4_update_secret_mapping (pk : PublicKey) (cipher msg m e : String)
    (st : Nat) (errs doc : Option String) :
    update_secret (.ok pk) (.ok cipher) .parsed = .ok () ∧
    (update_secret (.ok pk) (.ok cipher) (.jsonError msg) =
      if strContains msg "EOF" || strContains msg "expected value" then .ok ()
      else .error ("JSON parsing error: " ++ msg)) ∧
    update_secret (.ok pk) (.ok cipher) (.jsonError emptyBodyEofMessage) = .ok () ∧
    update_secret (.ok pk) (.ok cipher) (.githubError st m errs doc) =
      .error (githubApiErrorString st m errs doc) ∧
    strContains (githubApiErrorString st m errs doc) m = true ∧
    strContains (githubApiErrorString st m errs doc) (toString st) = true ∧
    (∀ u, doc = some u →
      strContains (githubApiErrorString st m errs doc) u = true) ∧
    update_secret (.ok pk) (.ok cipher) (.httpError m) =
      .error ("HTTP error: " ++ m) ∧
    update_secret (.ok pk) (.ok cipher) (.uriError m) =
      .error ("URI error: " ++ m) ∧
    update_secret (.error e) (.ok cipher) .parsed = .error e ∧
    update_secret (.ok pk) (.error e) .parsed =
      .error ("Failed to encrypt secret: " ++ e) := by
  refine ⟨rfl, rfl, rfl, rfl, ?_, ?_, ?_, rfl, rfl, rfl, rfl⟩
  · unfold githubApiErrorString
    rw [String.append_assoc]
    exact strContains_mid _ m _
  · unfold githubApiErrorString
    rw [String.append_assoc, String.append_assoc, String.append_assoc]
    exact strContains_mid _ (toString st) _
  · intro u hu
    subst hu
    unfold githubApiErrorString
    rw [← String.append_assoc]
    exact strContains_right _ u

/-- Claim C4, witness: the mapping at concrete inputs, including a
documentation link. -/
theorem c4_update_secret_mapping_witness :
    (some "https://docs.github.com" = some "https://docs.github.com") ∧
    update_secret (.ok { key_id := "1", key := "k" }) (.ok "c")
        (.githubError 403 "Forbidden" none (some "https://docs.github.com")) =
      .error (githubApiErrorString 403 "Forbidden" none (some "https://docs.github.com")) ∧
    strContains
        (githubApiErrorString 403 "Forbidden" none (some "https://docs.github.com"))
        "https://docs.github.com" = true := by
  refine ⟨rfl, ?_, ?_⟩
  · exact (c4_update_secret_mapping { key_id := "1", key := "k" } "c" "" "Forbidden" ""
      403 none (some "https://docs.github.com")).2.2.2.1
  · exact (c4_update_secret_mapping { key_id := "1", key := "k" } "c" "" "Forbidden" ""
      403 none (some "https://docs.github.com")).2.2.2.2.2.2.1 "https://docs.github.com" rfl

/-! ## Claims C6 and C10: rate limiter invariants -/

/-- The run invariant of a rate limiter started from
`with_limits mph mc w`: the limits are unchanged, the in-flight count is
within the concurrency limit, the timestamp count is within the hourly
limit (clamped below by one: a single acquire always records its own
timestamp even when the hourly limit is zero), and the timestamps are
sorted nondecreasingly. -/
def RLGood (mph mc w : Nat) (rl : RateLimiter) : Prop :=
  rl.max_requests_per_hour = mph ∧ rl.window = w ∧ rl.max_concurrent = mc ∧
  rl.current_concurrent ≤ mc ∧
  rl.request_times.length ≤ max mph 1 ∧
  rl.request_times.Pairwise (· ≤ ·)

/-- Recording a timestamp not earlier than every stored one preserves the
invariant, provided there is room for it. -/
theorem rlGood_record (mph mc w : Nat) (rl : RateLimiter) (t : Nat)
    (h1 : rl.max_requests_per_hour = mph) (h2 : rl.window = w)
    (h3 : rl.max_concurrent = mc)
    (h4 : rl.current_concurrent < mc)
    (h5 : rl.request_times.length + 1 ≤ max mph 1)
    (h6 : rl.request_times.Pairwise (· ≤ ·))
    (h7 : ∀ x ∈ rl.request_times, x ≤ t) :
    RLGood mph mc w (rl.record t) := by
  refine ⟨h1, h2, h3, by simpa [RateLimiter.record] using h4, ?_, ?_⟩
  · simpa [RateLimiter.record] using h5
  · simp only [RateLimiter.record]
    refine List.pairwise_append.mpr ⟨h6, List.pairwise_singleton _ _, ?_⟩
    intro a ha b hb
    simp at hb
    subst hb
    exact h7 a ha

/-- A completed acquire preserves the invariant. -/
theorem rlGood_acquire (mph mc w : Nat) (rl : RateLimiter) (now : Nat)
    (hg : RLGood mph mc w rl)
    (hconc : rl.current_concurrent < rl.max_concurrent)
    (hmono : ∀ t ∈ rl.request_times, t ≤ now) :
    RLGood mph mc w (rl.wait_if_needed now) := by
  obtain ⟨h1, h2, h3, h4, h5, h6⟩ := hg
  have hconc' : rl.current_concurrent < mc := h3 ▸ hconc
  have hp_len : (rl.prune now).request_times.length ≤ rl.request_times.length :=
    List.length_filter_le _ _
  have hp_sub : ∀ x ∈ (rl.prune now).request_times, x ∈ rl.request_times := by
    intro x hx
    exact List.mem_of_mem_filter hx
  have hp_pw : (rl.prune now).request_times.Pairwise (· ≤ ·) :=
    List.Pairwise.sublist (List.filter_sublist _) h6
  have hp_mono : ∀ x ∈ (rl.prune now).request_times, x ≤ now :=
    fun x hx => hmono x (hp_sub x hx)
  have hp1 : (rl.prune now).max_requests_per_hour = mph := h1
  have hp2 : (rl.prune now).window = w := h2
  have hp3 : (rl.prune now).max_concurrent = mc := h3
  have hp4 : (rl.prune now).current_concurrent < mc := hconc'
  unfold RateLimiter.wait_if_needed
  split
  · -- at the hourly limit after pruning
    rename_i hfull
    split
    · -- pruned timestamp list empty: the hourly limit must be zero
      rename_i x heq
      refine rlGood_record mph mc w _ now hp1 hp2 hp3 hp4 ?_ ?_ ?_
      · rw [heq]
        simp [le_max_right]
      · rw [heq]
        exact List.Pairwise.nil
      · intro y hy
        rw [heq] at hy
        simp at hy
    · -- pruned list nonempty: wait until the oldest timestamp leaves the
      -- window, prune again (dropping at least the oldest), then record
      rename_i x oldest rest heq
      have ho_mem : oldest ∈ (rl.prune now).request_times := by
        rw [heq]
        exact List.mem_cons_self _ _
      have ho_now : oldest ≤ now := hp_mono oldest ho_mem
      have ho_in_window : now - oldest < rl.window := by
        have hm : oldest ∈ rl.request_times.filter fun t => decide (now - t < rl.window) := by
          simpa [RateLimiter.prune] using ho_mem
        have := List.mem_filter.mp hm
        simpa using this.2
      split
      · rename_i helapsed
        have hw : (rl.prune now).window = rl.window := rfl
        refine rlGood_record mph mc w _ _ hp1 hp2 hp3 hp4 ?_ ?_ ?_
        · have htimes2 : ((rl.prune now).prune
                (now + ((rl.prune now).window - (now - oldest)))).request_times
              = List.filter
                  (fun t => decide
                    (now + ((rl.prune now).window - (now - oldest)) - t < rl.window))
                  (oldest :: rest) := by
            rw [← heq]
            rfl
          rw [htimes2, List.filter_cons]
          have helapsed' : now - oldest < rl.window := hw ▸ helapsed
          have hnotkeep : (decide (now + ((rl.prune now).window - (now - oldest)) - oldest
              < rl.window)) = false := by
            rw [hw]
            simp only [decide_eq_false_iff_not]
            omega
          rw [hnotkeep]
          simp only [Bool.false_eq_true, if_false]
          have hflen := List.length_filter_le
            (fun t => decide
              (now + ((rl.prune now).window - (now - oldest)) - t < rl.window)) rest
          have hc : rest.length + 1 = (rl.prune now).request_times.length := by
            rw [heq]
            simp
          have hlen1 : (rl.prune now).request_times.length ≤ max mph 1 :=
            le_trans hp_len h5
          omega
        · exact List.Pairwise.sublist (List.filter_sublist _) hp_pw
        · intro y hy
          have hy' : y ∈ (rl.prune now).request_times :=
            List.mem_of_mem_filter hy
          have hy2 := hp_mono y hy'
          omega
      · -- unreachable: the head of the pruned list is inside the window
        rename_i helapsed
        exact absurd ho_in_window (by simpa [RateLimiter.prune] using helapsed)
  · -- below the hourly limit after pruning: just record
    rename_i hfull
    refine rlGood_record mph mc w _ now hp1 hp2 hp3 hp4 ?_ hp_pw hp_mono
    rw [hp1] at hfull
    have := le_max_left mph 1
    omega

/-- Release preserves the invariant. -/
theorem rlGood_release (mph mc w : Nat) (rl : RateLimiter)
    (hg : RLGood mph mc w rl) : RLGood mph mc w rl.release := by
  obtain ⟨h1, h2, h3, h4, h5, h6⟩ := hg
  unfold RateLimiter.release
  split
  · exact ⟨h1, h2, h3, by simp; omega, h5, h6⟩
  · exact ⟨h1, h2, h3, h4, h5, h6⟩

/-- Every reachable state of a rate limiter satisfies the invariant. -/
theorem rlGood_reach (mph mc w : Nat) (st : RateLimiter)
    (h : RLReach (RateLimiter.with_limits mph mc w) st) : RLGood mph mc w st := by
  induction h with
  | refl =>
    exact ⟨rfl, rfl, rfl, Nat.zero_le _, by simp [RateLimiter.with_limits],
      List.Pairwise.nil⟩
  | tail _ hstep ih =>
    cases hstep with
    | acquire now hconc hmono => exact rlGood_acquire mph mc w _ now ih hconc hmono
    | release => exact rlGood_release mph mc w _ ih

/-- Claim C6, counterexample: with `with_limits(0, 1, 3600)` — a
constructible configuration with `maxPerWindow = 0` — a completed acquire
records one timestamp inside the window, exceeding `maxPerWindow`. -/
theorem c6_zero_hourly_limit_violated :
    RLStep (RateLimiter.with_limits 0 1 3600)
      ((RateLimiter.with_limits 0 1 3600).wait_if_needed 0) ∧
    (((RateLimiter.with_limits 0 1 3600).wait_if_needed 0).request_times.filter
        (fun t => 0 - t < 3600)).length = 1 ∧
    (RateLimiter.with_limits 0 1 3600).max_requests_per_hour = 0 := by
  refine ⟨RLStep.acquire _ 0 (by decide) ?_, by decide, rfl⟩
  intro t ht
  simp [RateLimiter.with_limits] at ht

/-- Claim C6 (amended): provided `maxPerWindow ≥ 1`, along every sequence
of completed acquires and releases the in-flight count stays at most
`maxConcurrent` and the number of timestamps within the trailing window
stays at most `maxPerWindow`; `release` clamps the in-flight count at
zero (it never underflows, hence never panics). -/
theorem c6_rate_limiter_invariants (mph mc w : Nat) (st : RateLimiter)
    (hmph : 1 ≤ mph)
    (hreach : RLReach (RateLimiter.with_limits mph mc w) st) :
    st.current_concurrent ≤ mc ∧
    (∀ now, ((st.request_times.filter fun t => now - t < w).length ≤ mph)) ∧
    st.release.current_concurrent = st.current_concurrent - 1 := by
  obtain ⟨h1, h2, h3, h4, h5, h6⟩ := rlGood_reach mph mc w st hreach
  refine ⟨h4, ?_, ?_⟩
  · intro now
    have hle : (st.request_times.filter fun t => decide (now - t < w)).length
        ≤ st.request_times.length := List.length_filter_le _ _
    have hmax : max mph 1 = mph := max_eq_left hmph
    omega
  · unfold RateLimiter.release
    split
    · simp
    · omega

/-- Claim C6, witness: the invariant at the default configuration's
initial state. -/
theorem c6_rate_limiter_invariants_witness :
    (1 ≤ 5000) ∧
    ((RateLimiter.with_limits 5000 5 3600).current_concurrent ≤ 5 ∧
     (∀ now, (((RateLimiter.with_limits 5000 5 3600).request_times.filter
         fun t => now - t < 3600).length ≤ 5000)) ∧
     (RateLimiter.with_limits 5000 5 3600).release.current_concurrent =
       (RateLimiter.with_limits 5000 5 3600).current_concurrent - 1) :=
  ⟨by decide,
   c6_rate_limiter_invariants 5000 5 3600 _ (by decide) Relation.ReflTransGen.refl⟩

/-- Claim C10: along every sequence of completed acquires and releases the
timestamp list stays sorted in nondecreasing order, so its first element
is the oldest recorded request time. -/
theorem c10_timestamps_sorted (mph mc w : Nat) (st : RateLimiter)
    (hreach : RLReach (RateLimiter.with_limits mph mc w) st) :
    st.request_times.Pairwise (· ≤ ·) ∧
    ∀ o, st.request_times.head? = some o → ∀ t ∈ st.request_times, o ≤ t := by
  have hg := rlGood_reach mph mc w st hreach
  refine ⟨hg.2.2.2.2.2, ?_⟩
  intro o ho t ht
  cases hts : st.request_times with
  | nil => simp [hts] at ho
  | cons x rest =>
    rw [hts] at ho ht
    simp at ho
    subst ho
    have hp := hg.2.2.2.2.2
    rw [hts] at hp
    rcases List.mem_cons.mp ht with h | h
    · exact le_of_eq h.symm
    · exact (List.pairwise_cons.mp hp).1 t h

/-- Claim C10, witness: after two acquires at instants 5 and 7 on the
default configuration, the timestamp list is sorted with oldest first. -/
theorem c10_timestamps_sorted_witness :
    (((RateLimiter.with_limits 5000 5 3600).wait_if_needed 5).wait_if_needed
        7).request_times.Pairwise (· ≤ ·) :=
  (c10_timestamps_sorted 5000 5 3600 _
    (Relation.ReflTransGen.tail
      (Relation.ReflTransGen.tail Relation.ReflTransGen.refl
        (RLStep.acquire _ 5 (by decide) (by decide)))
      (RLStep.acquire _ 7 (by decide) (by decide)))).1

/-! ## Claim C3: the retry pass -/

/-- Supersession relation between a result before and after the retry
pass: each entry is either untouched or upgraded in place to a success. -/
def supRel (a b : UpdateResult) : Prop :=
  b = a ∨ b = successify a

/-- Marking the first match preserves the list length. -/
theorem updateFirstMatch_length (l : List UpdateResult) (n rp : String) :
    (updateFirstMatch l n rp).length = l.length := by
  induction l with
  | nil => rfl
  | cons r rest ih =>
    unfold updateFirstMatch
    split
    · simp
    · simp [ih]

/-- Marking the first match relates the lists pointwise by `supRel`. -/
theorem updateFirstMatch_supRel (l : List UpdateResult) (n rp : String) :
    List.Forall₂ supRel l (updateFirstMatch l n rp) := by
  induction l with
  | nil => exact List.Forall₂.nil
  | cons r rest ih =>
    unfold updateFirstMatch
    split
    · exact List.Forall₂.cons (Or.inr rfl) (List.forall₂_same.mpr fun x _ => Or.inl rfl)
    · exact List.Forall₂.cons (Or.inl rfl) ih

/-- Pointwise supersession composes. -/
theorem forall2_supRel_trans {l1 l2 l3 : List UpdateResult}
    (h12 : List.Forall₂ supRel l1 l2) (h23 : List.Forall₂ supRel l2 l3) :
    List.Forall₂ supRel l1 l3 := by
  induction h12 generalizing l3 with
  | nil =>
    cases h23
    exact List.Forall₂.nil
  | cons hab htl ih =>
    cases h23 with
    | cons hbc htl' =>
      refine List.Forall₂.cons ?_ (ih htl')
      rcases hab with rfl | rfl
      · exact hbc
      · rcases hbc with rfl | rfl
        · exact Or.inr rfl
        · exact Or.inr (by simp [successify])

/-- The retry pass trace: exactly one direct `update_secret` call per
collected failed pair, in order, and no lookup, confirmation, acquire or
release events. -/
theorem retryPass_trace (repos : List Repository)
    (upd : Nat → String → Except String Unit)
    (failed : List (Nat × SecretPair)) :
    ∀ results, (retryPass repos results upd failed).2 =
      failed.map fun p => CallEvent.updateCall p.1 p.2.key := by
  induction failed with
  | nil => intro results; rfl
  | cons p rest ih =>
    intro results
    obtain ⟨j, t⟩ := p
    cases hupd : upd j t.key with
    | ok u => simp [retryPass, hupd, ih]
    | error e => simp [retryPass, hupd, ih]

/-- The retry pass only upgrades entries in place. -/
theorem retryPass_supRel (repos : List Repository)
    (upd : Nat → String → Except String Unit)
    (failed : List (Nat × SecretPair)) :
    ∀ results, List.Forall₂ supRel results (retryPass repos results upd failed).1 := by
  induction failed with
  | nil =>
    intro results
    exact List.forall₂_same.mpr fun x _ => Or.inl rfl
  | cons p rest ih =>
    intro results
    obtain ⟨j, t⟩ := p
    cases hupd : upd j t.key with
    | ok u =>
      simp only [retryPass, hupd]
      exact forall2_supRel_trans (updateFirstMatch_supRel _ _ _) (ih _)
    | error e =>
      simp only [retryPass, hupd]
      exact ih _

/-- When a matching entry exists, marking the first match produces a
matching successful entry. -/
theorem updateFirstMatch_success (l : List UpdateResult) (n rp : String)
    (h : ∃ r ∈ l, r.secret_name = n ∧ r.repository = rp) :
    ∃ r ∈ updateFirstMatch l n rp,
      r.secret_name = n ∧ r.repository = rp ∧ r.success = true := by
  induction l with
  | nil => simp at h
  | cons r rest ih =>
    unfold updateFirstMatch
    by_cases hc : (r.secret_name == n && r.repository == rp) = true
    · rw [if_pos hc]
      simp only [Bool.and_eq_true, beq_iff_eq] at hc
      exact ⟨successify r, List.mem_cons_self _ _, hc.1, hc.2, rfl⟩
    · rw [if_neg hc]
      obtain ⟨x, hx, hxn, hxr⟩ := h
      rcases List.mem_cons.mp hx with rfl | hx'
      · exact absurd (by simp [hxn, hxr]) hc
      · obtain ⟨y, hy, hprop⟩ := ih ⟨x, hx', hxn, hxr⟩
        exact ⟨y, List.mem_cons_of_mem _ hy, hprop⟩

/-- Supersession preserves the existence of a matching entry. -/
theorem forall2_preserve_match {l l' : List UpdateResult} (n rp : String)
    (h : List.Forall₂ supRel l l')
    (hex : ∃ r ∈ l, r.secret_name = n ∧ r.repository = rp) :
    ∃ r ∈ l', r.secret_name = n ∧ r.repository = rp := by
  induction h with
  | nil => simp at hex
  | cons hab htl ih =>
    rename_i a b l1 l2
    obtain ⟨x, hx, hxn, hxr⟩ := hex
    rcases List.mem_cons.mp hx with heq | hx'
    · rw [heq] at hxn hxr
      have hbn : b.secret_name = n := by
        rcases hab with hb | hb
        · rw [hb]; exact hxn
        · rw [hb]; exact hxn
      have hbr : b.repository = rp := by
        rcases hab with hb | hb
        · rw [hb]; exact hxr
        · rw [hb]; exact hxr
      exact ⟨b, List.mem_cons_self _ _, hbn, hbr⟩
    · obtain ⟨y, hy, hprop⟩ := ih ⟨x, hx', hxn, hxr⟩
      exact ⟨y, List.mem_cons_of_mem _ hy, hprop⟩

/-- Supersession preserves the existence of a matching successful
entry. -/
theorem forall2_preserve_success {l l' : List UpdateResult} (n rp : String)
    (h : List.Forall₂ supRel l l')
    (hex : ∃ r ∈ l, r.secret_name = n ∧ r.repository = rp ∧ r.success = true) :
    ∃ r ∈ l', r.secret_name = n ∧ r.repository = rp ∧ r.success = true := by
  induction h with
  | nil => simp at hex
  | cons hab htl ih =>
    rename_i a b l1 l2
    obtain ⟨x, hx, hxn, hxr, hxs⟩ := hex
    rcases List.mem_cons.mp hx with heq | hx'
    · rw [heq] at hxn hxr hxs
      have hbn : b.secret_name = n := by
        rcases hab with hb | hb
        · rw [hb]; exact hxn
        · rw [hb]; exact hxn
      have hbr : b.repository = rp := by
        rcases hab with hb | hb
        · rw [hb]; exact hxr
        · rw [hb]; exact hxr
      have hbs : b.success = true := by
        rcases hab with hb | hb
        · rw [hb]; exact hxs
        · rw [hb]; rfl
      exact ⟨b, List.mem_cons_self _ _, hbn, hbr, hbs⟩
    · obtain ⟨y, hy, hprop⟩ := ih ⟨x, hx', hxn, hxr, hxs⟩
      exact ⟨y, List.mem_cons_of_mem _ hy, hprop⟩

/-- A pair whose retry update succeeds ends with its existing matching
entry marked as a success. -/
theorem retryPass_marks (repos : List Repository)
    (upd : Nat → String → Except String Unit)
    (failed : List (Nat × SecretPair)) :
    ∀ results (i : Nat) (s : SecretPair), (i, s) ∈ failed →
      upd i s.key = .ok () →
      (∃ r ∈ results, r.secret_name = s.key ∧
        r.repository = (repoAt repos i).display_name) →
      ∃ r ∈ (retryPass repos results upd failed).1,
        r.secret_name = s.key ∧ r.repository = (repoAt repos i).display_name ∧
        r.success = true := by
  induction failed with
  | nil =>
    intro results i s hmem
    simp at hmem
  | cons p rest ih =>
    intro results i s hmem hok hex
    obtain ⟨j, t⟩ := p
    rcases List.mem_cons.mp hmem with heq | hmem'
    · injection heq with h1 h2
      subst h1
      subst h2
      have hstep : (retryPass repos results upd ((i, s) :: rest)).1 =
          (retryPass repos
            (updateFirstMatch results s.key (repoAt repos i).display_name)
            upd rest).1 := by
        simp [retryPass, hok]
      rw [hstep]
      exact forall2_preserve_success _ _ (retryPass_supRel repos upd rest _)
        (updateFirstMatch_success results s.key (repoAt repos i).display_name hex)
    · cases hupd : upd j t.key with
      | ok u =>
        have hstep : (retryPass repos results upd ((j, t) :: rest)).1 =
            (retryPass repos
              (updateFirstMatch results t.key (repoAt repos j).display_name)
              upd rest).1 := by
          simp [retryPass, hupd]
        rw [hstep]
        exact ih _ i s hmem' hok
          (forall2_preserve_match _ _
            (updateFirstMatch_supRel results t.key (repoAt repos j).display_name) hex)
      | error e =>
        have hstep : (retryPass repos results upd ((j, t) :: rest)).1 =
            (retryPass repos results upd rest).1 := by
          simp [retryPass, hupd]
        rw [hstep]
        exact ih _ i s hmem' hok hex

/-- Claim C3: the retry pass calls `update_secret` directly, exactly once
per collected failed pair and in order, with no `get_secret_info` and no
confirmation prompt; it appends nothing (the result list keeps its
length), every entry is either untouched or upgraded in place to a
success, and a pair whose retry update succeeds ends with its existing
entry marked successful.  The pass runs once: its trace is exactly the
failed-pair list mapped to single update calls. -/
theorem c3_retry_pass_semantics (repos : List Repository)
    (results : List UpdateResult) (failed : List (Nat × SecretPair))
    (upd : Nat → String → Except String Unit) :
    (retryPass repos results upd failed).2 =
      (failed.map fun p => CallEvent.updateCall p.1 p.2.key) ∧
    (retryPass repos results upd failed).1.length = results.length ∧
    List.Forall₂ supRel results (retryPass repos results upd failed).1 ∧
    (∀ (i : Nat) (s : SecretPair), (i, s) ∈ failed →
      upd i s.key = .ok () →
      (∃ r ∈ results, r.secret_name = s.key ∧
        r.repository = (repoAt repos i).display_name) →
      ∃ r ∈ (retryPass repos results upd failed).1,
        r.secret_name = s.key ∧ r.repository = (repoAt repos i).display_name ∧
        r.success = true) := by
  refine ⟨retryPass_trace repos upd failed results, ?_,
    retryPass_supRel repos upd failed results,
    fun i s hmem hok hex => retryPass_marks repos upd failed results i s hmem hok hex⟩
  exact (List.Forall₂.length_eq (retryPass_supRel repos upd failed results)).symm

/-- Claim C3, witness: one failed pair whose retry succeeds upgrades the
existing entry in place. -/
theorem c3_retry_pass_semantics_witness :
    ((retryPass [{ owner := "o", name := "r", repoAlias := none }]
        [{ secret_name := "K", repository := "o/r", success := false,
           error := some "boom" }]
        (fun _ _ => .ok ())
        [(0, { key := "K", value := "v" })]).2 =
      [CallEvent.updateCall 0 "K"]) ∧
    ((0, ({ key := "K", value := "v" } : SecretPair)) ∈
      [((0 : Nat), ({ key := "K", value := "v" } : SecretPair))]) ∧
    ((fun (_ : Nat) (_ : String) => (Except.ok () : Except String Unit)) 0 "K" =
      .ok ()) ∧
    (∃ r ∈ (retryPass [{ owner := "o", name := "r", repoAlias := none }]
        [{ secret_name := "K", repository := "o/r", success := false,
           error := some "boom" }]
        (fun _ _ => .ok ())
        [(0, { key := "K", value := "v" })]).1,
      r.secret_name = "K" ∧
      r.repository = (repoAt [{ owner := "o", name := "r", repoAlias := none }]
        0).display_name ∧
      r.success = true) := by
  refine ⟨?_, by simp, rfl, ?_⟩
  · exact (c3_retry_pass_semantics _ _ _ _).1
  · refine (c3_retry_pass_semantics [{ owner := "o", name := "r", repoAlias := none }]
      [{ secret_name := "K", repository := "o/r", success := false,
         error := some "boom" }]
      [(0, { key := "K", value := "v" })]
      (fun _ _ => .ok ())).2.2.2 0 { key := "K", value := "v" } (by simp) rfl ?_
    exact ⟨_, List.mem_cons_self _ _, rfl, by decide⟩

/-! ## Claim C9: declined overwrites are failures but are not retried -/

/-- When every update call succeeds, a first-pass segment adds no failed
pair and every added result is a success or a declined overwrite. -/
theorem mainProcessSecrets_all_ok
    (info : Nat → String → Except String (Option SecretInfo))
    (confirm : String → Option String → Bool)
    (upd : Nat → String → Except String Unit)
    (hupd : ∀ (i : Nat) (k : String), upd i k = .ok ())
    (repoIndex : Nat) (repoDisplay : String) :
    ∀ (secrets : List SecretPair) (st st' : PassState),
      mainProcessSecrets repoIndex repoDisplay info confirm upd st secrets = .ok st' →
      st'.failed = st.failed ∧
      ∀ r ∈ st'.results,
        r ∈ st.results ∨ r.success = true ∨ r.error = some declinedMsg := by
  intro secrets
  induction secrets with
  | nil =>
    intro st st' h
    cases h
    exact ⟨rfl, fun r hr => Or.inl hr⟩
  | cons s rest ih =>
    intro st st' h
    rw [mainProcessSecrets] at h
    cases hinfo : info repoIndex s.key with
    | error e =>
      simp only [mainProcessSecret, hinfo] at h
      cases h
    | ok minfo =>
      cases minfo with
      | some md =>
        by_cases hc : confirm s.key md.updated_at = true
        · simp only [mainProcessSecret, hinfo, hc, if_true,
            mainAttemptUpdate, hupd repoIndex s.key] at h
          obtain ⟨hf, hr⟩ := ih _ _ h
          refine ⟨hf, fun r hrm => ?_⟩
          rcases hr r hrm with hin | hrest
          · simp at hin
            rcases hin with hin | hin
            · exact Or.inl hin
            · exact Or.inr (Or.inl (by rw [hin]))
          · exact Or.inr hrest
        · simp only [mainProcessSecret, hinfo, hc, if_false,
            Bool.false_eq_true] at h
          obtain ⟨hf, hr⟩ := ih _ _ h
          refine ⟨hf, fun r hrm => ?_⟩
          rcases hr r hrm with hin | hrest
          · simp at hin
            rcases hin with hin | hin
            · exact Or.inl hin
            · exact Or.inr (Or.inr (by rw [hin]))
          · exact Or.inr hrest
      | none =>
        simp only [mainProcessSecret, hinfo, mainAttemptUpdate,
          hupd repoIndex s.key] at h
        obtain ⟨hf, hr⟩ := ih _ _ h
        refine ⟨hf, fun r hrm => ?_⟩
        rcases hr r hrm with hin | hrest
        · simp at hin
          rcases hin with hin | hin
          · exact Or.inl hin
          · exact Or.inr (Or.inl (by rw [hin]))
        · exact Or.inr hrest

/-- When every update call succeeds, the whole first pass adds no failed
pair and every added result is a success or a declined overwrite. -/
theorem mainPassRepos_all_ok (repos : List Repository)
    (secrets : List SecretPair)
    (info : Nat → String → Except String (Option SecretInfo))
    (confirm : String → Option String → Bool)
    (upd : Nat → String → Except String Unit)
    (hupd : ∀ (i : Nat) (k : String), upd i k = .ok ()) :
    ∀ (selected : List Nat) (st st' : PassState),
      mainPassRepos repos secrets info confirm upd st selected = .ok st' →
      st'.failed = st.failed ∧
      ∀ r ∈ st'.results,
        r ∈ st.results ∨ r.success = true ∨ r.error = some declinedMsg := by
  intro selected
  induction selected with
  | nil =>
    intro st st' h
    cases h
    exact ⟨rfl, fun r hr => Or.inl hr⟩
  | cons i rest ih =>
    intro st st' h
    rw [mainPassRepos] at h
    cases hone : mainProcessSecrets i (repoAt repos i).display_name info confirm upd
        st secrets with
    | error e => rw [hone] at h; cases h
    | ok st1 =>
      rw [hone] at h
      obtain ⟨hf1, hr1⟩ :=
        mainProcessSecrets_all_ok info confirm upd hupd i
          (repoAt repos i).display_name secrets st st1 hone
      obtain ⟨hf2, hr2⟩ := ih _ _ h
      refine ⟨hf2.trans hf1, fun r hrm => ?_⟩
      rcases hr2 r hrm with hin | hrest
      · rcases hr1 r hin with hin' | hrest'
        · exact Or.inl hin'
        · exact Or.inr hrest'
      · exact Or.inr hrest

/-- A list with a non-successful member has fewer successes than
members. -/
theorem successCount_lt_of_failure (l : List UpdateResult)
    (hex : ∃ r ∈ l, r.success = false) : successCount l < l.length := by
  unfold successCount
  induction l with
  | nil => simp at hex
  | cons a rest ih =>
    obtain ⟨x, hx, hxs⟩ := hex
    rcases List.mem_cons.mp hx with heq | hx'
    · have ha : a.success = false := by rw [← heq]; exact hxs
      rw [List.filter_cons]
      have hlen := List.length_filter_le (fun r => r.success) rest
      simp [ha]
      omega
    · have hr := ih ⟨x, hx', hxs⟩
      rw [List.filter_cons]
      by_cases ha : a.success = true
      · simp [ha]
        omega
      · simp [ha]
        omega

/-- Claim C9: when no update call returns an error, a completed first
pass collects no failed pair (declined overwrites are not queued), every
recorded failure is a declined overwrite, an accepted retry pass performs
zero update calls, and the failure count is still positive whenever some
failure (necessarily a decline) was recorded, so the retry offer is
presented. -/
theorem c9_declines_not_retried (repos : List Repository)
    (selected : List Nat) (secrets : List SecretPair)
    (info : Nat → String → Except String (Option SecretInfo))
    (confirm : String → Option String → Bool)
    (upd : Nat → String → Except String Unit) (st : PassState)
    (hupd : ∀ (i : Nat) (k : String), upd i k = .ok ())
    (hrun : mainPass repos selected secrets info confirm upd = .ok st) :
    st.failed = [] ∧
    (∀ r ∈ st.results, r.success = false → r.error = some declinedMsg) ∧
    (retryPass repos st.results upd st.failed).2 = [] ∧
    ((∃ r ∈ st.results, r.success = false) → 0 < failureCount st.results) := by
  obtain ⟨hf, hr⟩ :=
    mainPassRepos_all_ok repos secrets info confirm upd hupd selected
      { results := [], failed := [] } st hrun
  have hfail : st.failed = [] := hf
  refine ⟨hfail, ?_, ?_, ?_⟩
  · intro r hrm hrs
    rcases hr r hrm with hin | hok | hdecl
    · simp at hin
    · rw [hok] at hrs; cases hrs
    · exact hdecl
  · rw [hfail]
    rfl
  · intro hex
    have := successCount_lt_of_failure st.results hex
    unfold failureCount
    omega

/-- Claim C9, witness: one repository, one existing secret, overwrite
declined — one failure recorded, nothing queued for retry, positive
failure count. -/
theorem c9_declines_not_retried_witness :
    (∀ (i : Nat) (k : String),
      (fun (_ : Nat) (_ : String) => (Except.ok () : Except String Unit)) i k =
        Except.ok ()) ∧
    mainPass [{ owner := "o", name := "r", repoAlias := none }] [0]
        [{ key := "K", value := "v" }]
        (fun _ _ => .ok (some { name := "", updated_at := some "2024-01-01T00:00:00Z" }))
        (fun _ _ => false)
        (fun _ _ => .ok ()) =
      .ok { results := [{ secret_name := "K", repository := "o/r",
                          success := false, error := some declinedMsg }],
            failed := [] } ∧
    ({ results := [{ secret_name := "K", repository := "o/r",
                     success := false, error := some declinedMsg }],
       failed := [] } : PassState).failed = [] ∧
    0 < failureCount
        [{ secret_name := "K", repository := "o/r",
           success := false, error := some declinedMsg }] := by
  refine ⟨fun _ _ => rfl, rfl, ?_, ?_⟩
  · exact (c9_declines_not_retried
      [{ owner := "o", name := "r", repoAlias := none }] [0]
      [{ key := "K", value := "v" }]
      (fun _ _ => .ok (some { name := "", updated_at := some "2024-01-01T00:00:00Z" }))
      (fun _ _ => false)
      (fun _ _ => .ok ())
      { results := [{ secret_name := "K", repository := "o/r",
                      success := false, error := some declinedMsg }],
        failed := [] }
      (fun _ _ => rfl) rfl).1
  · exact (c9_declines_not_retried
      [{ owner := "o", name := "r", repoAlias := none }] [0]
      [{ key := "K", value := "v" }]
      (fun _ _ => .ok (some { name := "", updated_at := some "2024-01-01T00:00:00Z" }))
      (fun _ _ => false)
      (fun _ _ => .ok ())
      { results := [{ secret_name := "K", repository := "o/r",
                      success := false, error := some declinedMsg }],
        failed := [] }
      (fun _ _ => rfl) rfl).2.2.2
      ⟨_, List.mem_cons_self _ _, rfl⟩

/-! ## Claim C8: per-repository grouping -/

/-- The group of a key after folding insertions is the original group
followed by the matching results in list order. -/
theorem foldl_addToGroups (l : List UpdateResult) :
    ∀ (m : String → List UpdateResult) (k : String),
      (l.foldl addToGroups m) k = m k ++ l.filter fun r => r.repository == k := by
  induction l with
  | nil =>
    intro m k
    simp
  | cons r rest ih =>
    intro m k
    rw [List.foldl_cons, ih, List.filter_cons]
    by_cases hc : (r.repository == k) = true
    · simp [addToGroups, hc]
    · simp [addToGroups, hc]

/-- A key's group lists exactly the results carrying it, in input order. -/
theorem repoGroups_eq_filter (results : List UpdateResult) (k : String) :
    repoGroups results k = results.filter fun r => r.repository == k := by
  have h := foldl_addToGroups results (fun _ => []) k
  simpa [repoGroups] using h

/-- Inserting a key preserves distinctness. -/
theorem insertKey_nodup (ks : List String) (k : String) (h : ks.Nodup) :
    (insertKey ks k).Nodup := by
  unfold insertKey
  split
  · exact h
  · rename_i hnot
    rw [List.nodup_append]
    exact ⟨h, List.nodup_singleton _, by
      intro a ha hb
      simp at hb
      subst hb
      exact hnot ha⟩

/-- Membership after inserting a key. -/
theorem mem_insertKey (ks : List String) (k x : String) :
    x ∈ insertKey ks k ↔ x ∈ ks ∨ x = k := by
  unfold insertKey
  split
  · rename_i hin
    constructor
    · exact fun h => Or.inl h
    · rintro (h | rfl)
      · exact h
      · exact hin
  · simp

/-- The first-seen key fold keeps the accumulator distinct. -/
theorem foldl_insert_nodup (l : List UpdateResult) :
    ∀ acc : List String, acc.Nodup →
      (l.foldl (fun ks r => insertKey ks r.repository) acc).Nodup := by
  induction l with
  | nil => intro acc h; exact h
  | cons r rest ih =>
    intro acc h
    exact ih _ (insertKey_nodup acc r.repository h)

/-- Membership in the first-seen key fold. -/
theorem mem_foldl_insert (l : List UpdateResult) :
    ∀ (acc : List String) (k : String),
      k ∈ l.foldl (fun ks r => insertKey ks r.repository) acc ↔
        k ∈ acc ∨ ∃ r ∈ l, r.repository = k := by
  induction l with
  | nil =>
    intro acc k
    simp
  | cons r rest ih =>
    intro acc k
    rw [List.foldl_cons, ih, mem_insertKey]
    constructor
    · rintro ((h | h) | ⟨x, hx, hxr⟩)
      · exact Or.inl h
      · exact Or.inr ⟨r, List.mem_cons_self _ _, h.symm⟩
      · exact Or.inr ⟨x, List.mem_cons_of_mem _ hx, hxr⟩
    · rintro (h | ⟨x, hx, hxr⟩)
      · exact Or.inl (Or.inl h)
      · rcases List.mem_cons.mp hx with heq | hx'
        · exact Or.inl (Or.inr (by rw [← heq, hxr]))
        · exact Or.inr ⟨x, hx', hxr⟩

/-- The first-seen key list is distinct. -/
theorem firstSeenKeys_nodup (results : List UpdateResult) :
    (firstSeenKeys results).Nodup :=
  foldl_insert_nodup results [] List.nodup_nil

/-- The first-seen key list holds exactly the repositories occurring in
the results. -/
theorem mem_firstSeenKeys (results : List UpdateResult) (k : String) :
    k ∈ firstSeenKeys results ↔ ∃ r ∈ results, r.repository = k := by
  rw [firstSeenKeys, mem_foldl_insert]
  simp

/-- Sums of pointwise-added maps split. -/
theorem sum_map_add (f g : String → Nat) :
    ∀ ks : List String,
      (ks.map fun k => f k + g k).sum = (ks.map f).sum + (ks.map g).sum := by
  intro ks
  induction ks with
  | nil => rfl
  | cons k rest ih =>
    simp [ih]
    omega

/-- An indicator sums to zero over a list avoiding the point. -/
theorem sum_indicator_zero (x : String) :
    ∀ ks : List String, x ∉ ks →
      (ks.map fun k => if x == k then 1 else 0).sum = 0 := by
  intro ks
  induction ks with
  | nil => intro _; rfl
  | cons k rest ih =>
    intro h
    have hx : ¬(x == k) = true := by
      simp only [beq_iff_eq]
      intro hk
      exact h (hk ▸ List.mem_cons_self _ _)
    simp only [List.map_cons, List.sum_cons, if_neg hx]
    rw [ih fun hr => h (List.mem_cons_of_mem _ hr)]

/-- An indicator sums to one over a distinct list containing the point. -/
theorem sum_indicator_one (x : String) :
    ∀ ks : List String, ks.Nodup → x ∈ ks →
      (ks.map fun k => if x == k then 1 else 0).sum = 1 := by
  intro ks
  induction ks with
  | nil => intro _ h; simp at h
  | cons k rest ih =>
    intro hnd hmem
    rcases List.mem_cons.mp hmem with heq | hmem'
    · have hx : (x == k) = true := by simp [heq]
      have hnot : x ∉ rest := by
        rw [heq]
        exact (List.nodup_cons.mp hnd).1
      simp only [List.map_cons, List.sum_cons, if_pos hx]
      rw [sum_indicator_zero x rest hnot]
    · have hx : ¬(x == k) = true := by
        simp only [beq_iff_eq]
        intro hk
        exact (List.nodup_cons.mp hnd).1 (hk ▸ hmem')
      simp only [List.map_cons, List.sum_cons, if_neg hx]
      rw [ih (List.nodup_cons.mp hnd).2 hmem']

/-- Over a distinct key list covering every result, the group sizes sum to
the number of results: the grouping is a partition. -/
theorem sum_filter_lengths (l : List UpdateResult) :
    ∀ ks : List String, ks.Nodup → (∀ r ∈ l, r.repository ∈ ks) →
      (ks.map fun k => (l.filter fun r => r.repository == k).length).sum =
        l.length := by
  induction l with
  | nil =>
    intro ks _ _
    have hz : ∀ k : String,
        ((([] : List UpdateResult).filter fun r => r.repository == k).length) = 0 := by
      intro k; rfl
    simp
  | cons r rest ih =>
    intro ks hnd hmem
    have hr : r.repository ∈ ks := hmem r (List.mem_cons_self _ _)
    have hrest : ∀ x ∈ rest, x.repository ∈ ks :=
      fun x hx => hmem x (List.mem_cons_of_mem _ hx)
    have hsplit : ∀ k : String,
        (((r :: rest).filter fun x => x.repository == k).length) =
          (if r.repository == k then 1 else 0) +
            ((rest.filter fun x => x.repository == k).length) := by
      intro k
      rw [List.filter_cons]
      by_cases hc : (r.repository == k) = true
      · simp [hc]
        omega
      · simp [hc]
    calc (ks.map fun k => ((r :: rest).filter fun x => x.repository == k).length).sum
        = (ks.map fun k => (if r.repository == k then 1 else 0) +
            ((rest.filter fun x => x.repository == k).length)).sum := by
          simp only [hsplit]
      _ = (ks.map fun k => if r.repository == k then 1 else 0).sum +
          (ks.map fun k => ((rest.filter fun x => x.repository == k).length)).sum :=
          sum_map_add _ _ ks
      _ = 1 + rest.length := by
          rw [sum_indicator_one r.repository ks hnd hr, ih ks hnd hrest]
      _ = (r :: rest).length := by
          simp [Nat.add_comm]

/-- Claim C8, counterexample: the breakdown map is a `std` hash map, whose
key iteration order is unspecified — the reversed order over two
repositories is an admissible enumeration of the same key set but differs
from first-seen order, so first-seen key order is not guaranteed. -/
theorem c8_key_order_not_guaranteed :
    hashMapKeyOrder
      [{ secret_name := "K", repository := "oa/ra", success := true, error := none },
       { secret_name := "K", repository := "ob/rb", success := true, error := none }]
      ["ob/rb", "oa/ra"] ∧
    ["ob/rb", "oa/ra"] ≠ firstSeenKeys
      [{ secret_name := "K", repository := "oa/ra", success := true, error := none },
       { secret_name := "K", repository := "ob/rb", success := true, error := none }] := by
  constructor
  · unfold hashMapKeyOrder
    decide
  · decide

/-- Claim C8 (amended): every admissible key enumeration of the breakdown
map is some permutation of the distinct repositories (first-seen order is
not guaranteed); each key's group lists exactly its results in input
order, and the groups partition the result list (the group sizes sum to
the total). -/
theorem c8_grouping (results : List UpdateResult) (ks : List String)
    (hks : hashMapKeyOrder results ks) :
    (∀ k, repoGroups results k = results.filter fun r => r.repository == k) ∧
    ks.Nodup ∧
    (∀ k, k ∈ ks ↔ k ∈ firstSeenKeys results) ∧
    (ks.map fun k => (repoGroups results k).length).sum = results.length := by
  have hperm : ks.Perm (firstSeenKeys results) := hks
  refine ⟨fun k => repoGroups_eq_filter results k,
    (List.Perm.nodup_iff hperm).mpr (firstSeenKeys_nodup results),
    fun k => hperm.mem_iff, ?_⟩
  have h1 : (ks.map fun k => (repoGroups results k).length).sum =
      (ks.map fun k => (results.filter fun r => r.repository == k).length).sum := by
    simp only [repoGroups_eq_filter]
  rw [h1]
  have h2 := List.Perm.map
    (fun k => (results.filter fun r => r.repository == k).length) hperm
  rw [List.Perm.sum_eq h2]
  exact sum_filter_lengths results (firstSeenKeys results)
    (firstSeenKeys_nodup results)
    (fun r hr => (mem_firstSeenKeys results r.repository).mpr ⟨r, hr, rfl⟩)

/-- Claim C8, witness: the amended statement over two results and the
reversed admissible enumeration. -/
theorem c8_grouping_witness :
    hashMapKeyOrder
      [{ secret_name := "K", repository := "oa/ra", success := true, error := none },
       { secret_name := "K2", repository := "oa/ra", success := true, error := none }]
      ["oa/ra"] ∧
    (["oa/ra"].map fun k =>
        (repoGroups
          [{ secret_name := "K", repository := "oa/ra", success := true, error := none },
           { secret_name := "K2", repository := "oa/ra", success := true, error := none }]
          k).length).sum = 2 :=
  ⟨by unfold hashMapKeyOrder; decide,
   (c8_grouping
     [{ secret_name := "K", repository := "oa/ra", success := true, error := none },
      { secret_name := "K2", repository := "oa/ra", success := true, error := none }]
     ["oa/ra"] (by unfold hashMapKeyOrder; decide)).2.2.2⟩

/-! ## Claim C2: every client call happens under the rate limiter -/

/-- Scanning a block interior (client calls and prompts only) with the
limiter held ends at the matching release. -/
theorem cul_mid (mid : List CallEvent)
    (hmid : ∀ e ∈ mid, e ≠ CallEvent.acquire ∧ e ≠ CallEvent.release) :
    ∀ (n : Nat) (rest : List CallEvent), 0 < n →
      callsUnderLimiter n (mid ++ (CallEvent.release :: rest)) =
        callsUnderLimiter (n - 1) rest := by
  induction mid with
  | nil => intro n rest _; rfl
  | cons e mid' ih =>
    intro n rest h
    have he := hmid e (List.mem_cons_self _ _)
    have hmid' : ∀ x ∈ mid', x ≠ CallEvent.acquire ∧ x ≠ CallEvent.release :=
      fun x hx => hmid x (List.mem_cons_of_mem _ hx)
    cases e with
    | acquire => exact absurd rfl he.1
    | release => exact absurd rfl he.2
    | getInfoCall i k =>
      have hd : decide (0 < n) = true := by simpa using h
      simp only [List.cons_append, callsUnderLimiter, hd, Bool.true_and]
      exact ih hmid' n rest h
    | confirmCall k =>
      simp only [List.cons_append, callsUnderLimiter]
      exact ih hmid' n rest h
    | updateCall i k =>
      have hd : decide (0 < n) = true := by simpa using h
      simp only [List.cons_append, callsUnderLimiter, hd, Bool.true_and]
      exact ih hmid' n rest h

/-- A well-formed acquire/calls/release block leaves the held count as it
found it, with every call inside made while held. -/
theorem cul_block (mid : List CallEvent)
    (hmid : ∀ e ∈ mid, e ≠ CallEvent.acquire ∧ e ≠ CallEvent.release)
    (n : Nat) (rest : List CallEvent) :
    callsUnderLimiter n (CallEvent.acquire :: (mid ++ (CallEvent.release :: rest))) =
      callsUnderLimiter n rest := by
  show callsUnderLimiter (n + 1) (mid ++ (CallEvent.release :: rest)) = _
  rw [cul_mid mid hmid (n + 1) rest (Nat.succ_pos n)]
  simp

/-- Every pair processed by the orchestrator produces an
acquire-first/release-last block whose interior holds no acquire or
release: the rate limiter is acquired before the pair's first client call
and released only after its update attempt (or its early exit). -/
theorem specProcessPair_block (i : Nat) (disp : String)
    (info : Nat → String → Except String (Option SecretInfo))
    (confirm : String → Option String → Bool)
    (upd : Nat → String → Except String Unit) (s : SecretPair) :
    ∃ mid, (specProcessPair i disp info confirm upd s).2 =
        CallEvent.acquire :: (mid ++ [CallEvent.release]) ∧
      ∀ e ∈ mid, e ≠ CallEvent.acquire ∧ e ≠ CallEvent.release := by
  cases hinfo : info i s.key with
  | error e =>
    refine ⟨[CallEvent.getInfoCall i s.key], by simp [specProcessPair, hinfo], ?_⟩
    intro x hx
    simp at hx
    subst hx
    exact ⟨by simp, by simp⟩
  | ok minfo =>
    cases minfo with
    | some md =>
      by_cases hc : confirm s.key md.updated_at = true
      · cases hupd : upd i s.key with
        | ok u =>
          refine ⟨[CallEvent.getInfoCall i s.key, CallEvent.confirmCall s.key,
            CallEvent.updateCall i s.key],
            by simp [specProcessPair, hinfo, hc, hupd], ?_⟩
          intro x hx
          simp at hx
          rcases hx with hx | hx | hx <;> subst hx <;>
            exact ⟨by simp, by simp⟩
        | error e =>
          refine ⟨[CallEvent.getInfoCall i s.key, CallEvent.confirmCall s.key,
            CallEvent.updateCall i s.key],
            by simp [specProcessPair, hinfo, hc, hupd], ?_⟩
          intro x hx
          simp at hx
          rcases hx with hx | hx | hx <;> subst hx <;>
            exact ⟨by simp, by simp⟩
      · refine ⟨[CallEvent.getInfoCall i s.key, CallEvent.confirmCall s.key],
          by simp [specProcessPair, hinfo, hc], ?_⟩
        intro x hx
        simp at hx
        rcases hx with hx | hx <;> subst hx <;>
          exact ⟨by simp, by simp⟩
    | none =>
      cases hupd : upd i s.key with
      | ok u =>
        refine ⟨[CallEvent.getInfoCall i s.key, CallEvent.updateCall i s.key],
          by simp [specProcessPair, hinfo, hupd], ?_⟩
        intro x hx
        simp at hx
        rcases hx with hx | hx <;> subst hx <;>
          exact ⟨by simp, by simp⟩
      | error e =>
        refine ⟨[CallEvent.getInfoCall i s.key, CallEvent.updateCall i s.key],
          by simp [specProcessPair, hinfo, hupd], ?_⟩
        intro x hx
        simp at hx
        rcases hx with hx | hx <;> subst hx <;>
          exact ⟨by simp, by simp⟩

/-- The per-secret loop's trace is transparent to the held count. -/
theorem cul_specPassSecrets (i : Nat) (disp : String)
    (info : Nat → String → Except String (Option SecretInfo))
    (confirm : String → Option String → Bool)
    (upd : Nat → String → Except String Unit) :
    ∀ (secrets : List SecretPair) (n : Nat) (rest : List CallEvent),
      callsUnderLimiter n
          ((specPassSecrets i disp info confirm upd secrets).2.2 ++ rest) =
        callsUnderLimiter n rest := by
  intro secrets
  induction secrets with
  | nil => intro n rest; rfl
  | cons s ss ih =>
    intro n rest
    obtain ⟨mid, hblock, hmid⟩ := specProcessPair_block i disp info confirm upd s
    have htr : (specPassSecrets i disp info confirm upd (s :: ss)).2.2 =
        (specProcessPair i disp info confirm upd s).2 ++
          (specPassSecrets i disp info confirm upd ss).2.2 := by
      simp [specPassSecrets]
    rw [htr, List.append_assoc, hblock, List.cons_append, List.append_assoc,
      List.singleton_append, cul_block mid hmid n _]
    exact ih n rest

/-- The repository loop's trace is transparent to the held count. -/
theorem cul_specPassRepos (repos : List Repository) (secrets : List SecretPair)
    (info : Nat → String → Except String (Option SecretInfo))
    (confirm : String → Option String → Bool)
    (upd : Nat → String → Except String Unit) :
    ∀ (selected : List Nat) (n : Nat) (rest : List CallEvent),
      callsUnderLimiter n
          ((specPassRepos repos secrets info confirm upd selected).2.2 ++ rest) =
        callsUnderLimiter n rest := by
  intro selected
  induction selected with
  | nil => intro n rest; rfl
  | cons i is ih =>
    intro n rest
    have htr : (specPassRepos repos secrets info confirm upd (i :: is)).2.2 =
        (specPassSecrets i (repoAt repos i).display_name info confirm upd secrets).2.2 ++
          (specPassRepos repos secrets info confirm upd is).2.2 := by
      simp [specPassRepos]
    rw [htr, List.append_assoc, cul_specPassSecrets i (repoAt repos i).display_name
      info confirm upd secrets n _]
    exact ih n rest

/-- The retry pass's trace is transparent to the held count: every retry
update is wrapped in its own acquire/release. -/
theorem cul_specRetry (repos : List Repository)
    (upd : Nat → String → Except String Unit) :
    ∀ (failed : List (Nat × SecretPair)) (results : List UpdateResult)
      (n : Nat) (rest : List CallEvent),
      callsUnderLimiter n ((specRetry repos results upd failed).2 ++ rest) =
        callsUnderLimiter n rest := by
  intro failed
  induction failed with
  | nil => intro results n rest; rfl
  | cons p rest' ih =>
    intro results n rest
    obtain ⟨j, t⟩ := p
    have hone : decide (0 < n + 1) = true := by simp
    cases hupd : upd j t.key with
    | ok u =>
      have htr : (specRetry repos results upd ((j, t) :: rest')).2 =
          CallEvent.acquire :: CallEvent.updateCall j t.key :: CallEvent.release ::
            (specRetry repos
              (updateFirstMatch results t.key (repoAt repos j).display_name)
              upd rest').2 := by
        simp [specRetry, hupd]
      rw [htr]
      simp only [List.cons_append, callsUnderLimiter, hone, Bool.true_and,
        Nat.add_sub_cancel]
      exact ih _ n rest
    | error e =>
      have htr : (specRetry repos results upd ((j, t) :: rest')).2 =
          CallEvent.acquire :: CallEvent.updateCall j t.key :: CallEvent.release ::
            (specRetry repos results upd rest').2 := by
        simp [specRetry, hupd]
      rw [htr]
      simp only [List.cons_append, callsUnderLimiter, hone, Bool.true_and,
        Nat.add_sub_cancel]
      exact ih _ n rest

/-- Claim C2 (spec-modelled `App::run_with_deps`): over the whole run —
first pass and optional retry pass — every `get_secret_info` and
`update_secret` call happens while the rate limiter is held, and each
pair's events form an acquire-first/release-last block: the limiter is
acquired before the pair's first client call and released after its
update attempt completes. -/
theorem c2_rate_limiter_held (repos : List Repository) (selected : List Nat)
    (secrets : List SecretPair)
    (info : Nat → String → Except String (Option SecretInfo))
    (confirm : String → Option String → Bool)
    (upd : Nat → String → Except String Unit) (retryConfirm : Bool) :
    callsUnderLimiter 0
        (specRunWithDeps repos selected secrets info confirm upd retryConfirm).2 =
      true ∧
    ∀ (i : Nat) (disp : String) (s : SecretPair),
      ∃ mid, (specProcessPair i disp info confirm upd s).2 =
          CallEvent.acquire :: (mid ++ [CallEvent.release]) ∧
        ∀ e ∈ mid, e ≠ CallEvent.acquire ∧ e ≠ CallEvent.release := by
  refine ⟨?_, fun i disp s => specProcessPair_block i disp info confirm upd s⟩
  simp only [specRunWithDeps]
  split
  · have h2 := cul_specRetry repos upd
      (specPassRepos repos secrets info confirm upd selected).2.1
      (specPassRepos repos secrets info confirm upd selected).1 0 []
    have h1 := cul_specPassRepos repos secrets info confirm upd selected 0
      ((specRetry repos (specPassRepos repos secrets info confirm upd selected).1
        upd (specPassRepos repos secrets info confirm upd selected).2.1).2)
    rw [List.append_nil] at h2
    rw [h1, h2]
    rfl
  · have h1 := cul_specPassRepos repos secrets info confirm upd selected 0 []
    rw [List.append_nil] at h1
    rw [h1]
    rfl

/-- Claim C2, witness: a concrete run with an existing secret, a confirmed
overwrite, a failing update and an accepted retry keeps every call under
the limiter. -/
theorem c2_rate_limiter_held_witness :
    callsUnderLimiter 0
        (specRunWithDeps [{ owner := "o", name := "r", repoAlias := none }] [0]
          [{ key := "K", value := "v" }]
          (fun _ _ => .ok (some { name := "", updated_at := some "2024-01-01T00:00:00Z" }))
          (fun _ _ => true)
          (fun _ _ => .error "boom")
          true).2 = true :=
  (c2_rate_limiter_held [{ owner := "o", name := "r", repoAlias := none }] [0]
    [{ key := "K", value := "v" }]
    (fun _ _ => .ok (some { name := "", updated_at := some "2024-01-01T00:00:00Z" }))
    (fun _ _ => true)
    (fun _ _ => .error "boom")
    true).1

end GithubSecrets
